import Mathlib

/-!
Shallow embedding of the movement-planning core of the `dihedral_six`
repository (crate `d6_core`): the dihedral symmetry algebra (`d6.rs`),
the projective rigid-motion layer (`pga.rs`) and the world planner
(`world.rs`).

Machine `f32` scalars are modelled by an arbitrary linear ordered field
`K`; numeric primitives that live in external crates
(`geometric_algebra` motor products / exponentials / magnitudes, `glam`
quaternion conversions, vector lengths and angles) are gathered in an
explicit record of operations `ExternalOps`, so that every piece of
logic that belongs to the repository itself is translated concretely and
remains executable (witnesses instantiate `K` with `ℚ`).
-/

/-- Dihedral group with 12 elements, `d6.rs` lines 6-20. -/
inductive D6 where
  | R0 | R1 | R2 | R3 | R4 | R5
  | S0 | S1 | S2 | S3 | S4 | S5
  deriving DecidableEq, Repr, Fintype

/-- The discriminant of a `D6` element, `self as usize` in `d6.rs`. -/
def D6.idx : D6 → Nat
  | .R0 => 0 | .R1 => 1 | .R2 => 2 | .R3 => 3 | .R4 => 4 | .R5 => 5
  | .S0 => 6 | .S1 => 7 | .S2 => 8 | .S3 => 9 | .S4 => 10 | .S5 => 11

/-- The `MULTIPLICATION_TABLE` constant of `impl Mul for D6`,
`d6.rs` lines 26-39, row-major. -/
def D6.multiplicationTable : List (List D6) :=
  [[.R0, .R1, .R2, .R3, .R4, .R5, .S0, .S1, .S2, .S3, .S4, .S5],
   [.R1, .R2, .R3, .R4, .R5, .R0, .S1, .S2, .S3, .S4, .S5, .S0],
   [.R2, .R3, .R4, .R5, .R0, .R1, .S2, .S3, .S4, .S5, .S0, .S1],
   [.R3, .R4, .R5, .R0, .R1, .R2, .S3, .S4, .S5, .S0, .S1, .S2],
   [.R4, .R5, .R0, .R1, .R2, .R3, .S4, .S5, .S0, .S1, .S2, .S3],
   [.R5, .R0, .R1, .R2, .R3, .R4, .S5, .S0, .S1, .S2, .S3, .S4],
   [.S0, .S5, .S4, .S3, .S2, .S1, .R0, .R5, .R4, .R3, .R2, .R1],
   [.S1, .S0, .S5, .S4, .S3, .S2, .R1, .R0, .R5, .R4, .R3, .R2],
   [.S2, .S1, .S0, .S5, .S4, .S3, .R2, .R1, .R0, .R5, .R4, .R3],
   [.S3, .S2, .S1, .S0, .S5, .S4, .R3, .R2, .R1, .R0, .R5, .R4],
   [.S4, .S3, .S2, .S1, .S0, .S5, .R4, .R3, .R2, .R1, .R0, .R5],
   [.S5, .S4, .S3, .S2, .S1, .S0, .R5, .R4, .R3, .R2, .R1, .R0]]

/-- `impl Mul for D6`, `d6.rs` lines 22-42:
`MULTIPLICATION_TABLE[self as usize][rhs as usize]`. -/
def D6.mul (a b : D6) : D6 :=
  ((D6.multiplicationTable.getD a.idx []).getD b.idx .R0)

/-- The six signed unit axis directions, `d6.rs` lines 44-52. -/
inductive Direction where
  | PosX | PosY | PosZ | NegX | NegY | NegZ
  deriving DecidableEq, Repr, Fintype

/-- The discriminant of a `Direction`. -/
def Direction.idx : Direction → Nat
  | .PosX => 0 | .PosY => 1 | .PosZ => 2
  | .NegX => 3 | .NegY => 4 | .NegZ => 5

/-- The 24 ordered orthogonal triplets of signed directions,
`d6.rs` lines 67-94. -/
inductive AxisSystem where
  | PosXPosYPosZ | NegXNegYPosZ | PosXNegYNegZ | NegXPosYNegZ
  | PosXPosZNegY | NegXNegZNegY | PosXNegZPosY | NegXPosZPosY
  | PosYPosZPosX | NegYNegZPosX | PosYNegZNegX | NegYPosZNegX
  | PosYPosXNegZ | NegYNegXNegZ | PosYNegXPosZ | NegYPosXPosZ
  | PosZPosXPosY | NegZNegXPosY | PosZNegXNegY | NegZPosXNegY
  | PosZPosYNegX | NegZNegYNegX | PosZNegYPosX | NegZPosYPosX
  deriving DecidableEq, Repr, Fintype

/-- `AxisSystem::into_triplet`, `d6.rs` lines 97-124. -/
def AxisSystem.into_triplet : AxisSystem → Direction × Direction × Direction
  | .PosXPosYPosZ => (.PosX, .PosY, .PosZ)
  | .NegXNegYPosZ => (.NegX, .NegY, .PosZ)
  | .PosXNegYNegZ => (.PosX, .NegY, .NegZ)
  | .NegXPosYNegZ => (.NegX, .PosY, .NegZ)
  | .PosXPosZNegY => (.PosX, .PosZ, .NegY)
  | .NegXNegZNegY => (.NegX, .NegZ, .NegY)
  | .PosXNegZPosY => (.PosX, .NegZ, .PosY)
  | .NegXPosZPosY => (.NegX, .PosZ, .PosY)
  | .PosYPosZPosX => (.PosY, .PosZ, .PosX)
  | .NegYNegZPosX => (.NegY, .NegZ, .PosX)
  | .PosYNegZNegX => (.PosY, .NegZ, .NegX)
  | .NegYPosZNegX => (.NegY, .PosZ, .NegX)
  | .PosYPosXNegZ => (.PosY, .PosX, .NegZ)
  | .NegYNegXNegZ => (.NegY, .NegX, .NegZ)
  | .PosYNegXPosZ => (.PosY, .NegX, .PosZ)
  | .NegYPosXPosZ => (.NegY, .PosX, .PosZ)
  | .PosZPosXPosY => (.PosZ, .PosX, .PosY)
  | .NegZNegXPosY => (.NegZ, .NegX, .PosY)
  | .PosZNegXNegY => (.PosZ, .NegX, .NegY)
  | .NegZPosXNegY => (.NegZ, .PosX, .NegY)
  | .PosZPosYNegX => (.PosZ, .PosY, .NegX)
  | .NegZNegYNegX => (.NegZ, .NegY, .NegX)
  | .PosZNegYPosX => (.PosZ, .NegY, .PosX)
  | .NegZPosYPosX => (.NegZ, .PosY, .PosX)

section Geometry

variable (K : Type) [LinearOrderedField K]

/-- A 2-dimensional vector over the scalar field, models `glam::Vec2`. -/
structure Vec2 where
  x : K
  y : K
  deriving DecidableEq, Repr

/-- A 3-dimensional vector over the scalar field, models `glam::Vec3`. -/
structure Vec3 where
  x : K
  y : K
  z : K
  deriving DecidableEq, Repr

/-- A column-major 3 by 3 matrix, models `glam::Mat3` (`from_cols`). -/
structure Mat3 where
  x_axis : Vec3 K
  y_axis : Vec3 K
  z_axis : Vec3 K
  deriving DecidableEq, Repr

end Geometry

variable {K : Type} [LinearOrderedField K]

namespace Vec2

/-- Componentwise subtraction of planar vectors. -/
def sub (a b : Vec2 K) : Vec2 K := ⟨a.x - b.x, a.y - b.y⟩

end Vec2

namespace Vec3

/-- The zero vector, `glam::Vec3::ZERO`. -/
def zero : Vec3 K := ⟨0, 0, 0⟩

/-- Scalar multiplication of a vector. -/
def smul (a : K) (v : Vec3 K) : Vec3 K := ⟨a * v.x, a * v.y, a * v.z⟩

/-- Componentwise addition. -/
def add (a b : Vec3 K) : Vec3 K := ⟨a.x + b.x, a.y + b.y, a.z + b.z⟩

/-- Componentwise negation. -/
def neg (a : Vec3 K) : Vec3 K := ⟨-a.x, -a.y, -a.z⟩

/-- Dot product. -/
def dot (a b : Vec3 K) : K := a.x * b.x + a.y * b.y + a.z * b.z

/-- Cross product, as in `glam`. -/
def cross (a b : Vec3 K) : Vec3 K :=
  ⟨a.y * b.z - a.z * b.y, a.z * b.x - a.x * b.z, a.x * b.y - a.y * b.x⟩

/-- The planar projection `Vec3Swizzles::xy`. -/
def xy (v : Vec3 K) : Vec2 K := ⟨v.x, v.y⟩

end Vec3

/-- `Direction::into_vec3`, `d6.rs` lines 54-65. -/
def Direction.into_vec3 : Direction → Vec3 K
  | .PosX => ⟨1, 0, 0⟩
  | .PosY => ⟨0, 1, 0⟩
  | .PosZ => ⟨0, 0, 1⟩
  | .NegX => ⟨-1, 0, 0⟩
  | .NegY => ⟨0, -1, 0⟩
  | .NegZ => ⟨0, 0, -1⟩

/-- `AxisSystem::into_mat3`, `d6.rs` lines 126-133: the matrix whose
columns are the three directions of the triplet. -/
def AxisSystem.into_mat3 (a : AxisSystem) : Mat3 K :=
  let t := a.into_triplet
  ⟨t.1.into_vec3, t.2.1.into_vec3, t.2.2.into_vec3⟩

namespace Mat3

/-- Matrix transpose. -/
def transpose (m : Mat3 K) : Mat3 K :=
  ⟨⟨m.x_axis.x, m.y_axis.x, m.z_axis.x⟩,
   ⟨m.x_axis.y, m.y_axis.y, m.z_axis.y⟩,
   ⟨m.x_axis.z, m.y_axis.z, m.z_axis.z⟩⟩

/-- Matrix-vector product (columns weighted by the components). -/
def mulVec3 (m : Mat3 K) (v : Vec3 K) : Vec3 K :=
  (Vec3.smul v.x m.x_axis).add ((Vec3.smul v.y m.y_axis).add
    (Vec3.smul v.z m.z_axis))

/-- Matrix product, columnwise. -/
def mul (a b : Mat3 K) : Mat3 K :=
  ⟨a.mulVec3 b.x_axis, a.mulVec3 b.y_axis, a.mulVec3 b.z_axis⟩

/-- The identity matrix, `glam::Mat3::IDENTITY`. -/
def identity : Mat3 K := ⟨⟨1, 0, 0⟩, ⟨0, 1, 0⟩, ⟨0, 0, 1⟩⟩

/-- Determinant, as computed by `glam::Mat3::determinant`:
`z_axis.dot(x_axis.cross(y_axis))`. -/
def det (m : Mat3 K) : K := m.z_axis.dot (m.x_axis.cross m.y_axis)

end Mat3

section PGA

variable (K : Type) [LinearOrderedField K]

/-- A `ppga3d::Line` (six coefficients), the representation inside
`Pivot` (`pga.rs` line 16).  Components are kept in the order of
`Line::new(d.x, d.y, d.z, m.x, m.y, m.z)`. -/
structure Line where
  c0 : K
  c1 : K
  c2 : K
  c3 : K
  c4 : K
  c5 : K
  deriving DecidableEq, Repr

/-- A `ppga3d::Motor` (eight coefficients), the finite rigid transform.
The first component is the scalar part, as in
`Motor::new(s, e23, e31, e12, e0123, e41, e42, e43)`. -/
structure Motor where
  m0 : K
  m1 : K
  m2 : K
  m3 : K
  m4 : K
  m5 : K
  m6 : K
  m7 : K
  deriving DecidableEq, Repr

/-- A `ppga3d::Point` (four coefficients), as in
`Point::new(p0, p1, p2, p3)` with the homogeneous weight first. -/
structure Point where
  p0 : K
  p1 : K
  p2 : K
  p3 : K
  deriving DecidableEq, Repr

/-- A column-major 4 by 4 matrix, models `glam::Mat4` (`from_cols_array_2d`
of four column arrays). -/
structure Mat4 where
  x_axis : Point K
  y_axis : Point K
  z_axis : Point K
  w_axis : Point K
  deriving DecidableEq, Repr

end PGA

/-- The dual-quaternion identity `Motor::new(1, 0, ..., 0)` of the
`geometric_algebra` crate, the neutral rigid transform. -/
def Motor.identity : Motor K := ⟨1, 0, 0, 0, 0, 0, 0, 0⟩

/-- Scalar multiplication of a `Line`, the `Line * f32` product used in
`Pivot::from_plucker` and `Pivot::scale`. -/
def Line.smul (l : Line K) (a : K) : Line K :=
  ⟨l.c0 * a, l.c1 * a, l.c2 * a, l.c3 * a, l.c4 * a, l.c5 * a⟩

/-- `Pivot`, `pga.rs` line 16: a screw-axis generator wrapping a `Line`. -/
structure Pivot (K : Type) [LinearOrderedField K] where
  line : Line K
  deriving DecidableEq, Repr

/-- The numeric primitives that the source pulls from the external
`geometric_algebra` and `glam` crates.  They are transcendental over
machine floats, hence modelled as an explicit record of operations;
every definition of the repository itself below is concrete. -/
structure ExternalOps (K : Type) [LinearOrderedField K] where
  /-- `Motor::geometric_product` of the `geometric_algebra` crate. -/
  gp : Motor K → Motor K → Motor K
  /-- `Line::exp` of the `geometric_algebra` crate (exponential map). -/
  lexp : Line K → Motor K
  /-- `Motor::transformation` applied to a `Point` (sandwich product). -/
  transformation : Motor K → Point K → Point K
  /-- `Point::signum` (normalization of the homogeneous weight). -/
  psignum : Point K → Point K
  /-- `point.regressive_product(line).magnitude()`, the body of
  `Pivot::distance` (`pga.rs` lines 39-41). -/
  pdist : Point K → Line K → K
  /-- `Quat::from_mat3(&matrix).to_scaled_axis()` of `glam`, used by
  `Pivot::from_rotation_matrix`. -/
  scaledAxis : Mat3 K → Vec3 K
  /-- `Vec2::length` of `glam`. -/
  len2 : Vec2 K → K
  /-- `Vec2::angle_to` of `glam` (signed angle between vectors). -/
  angleTo : Vec2 K → Vec2 K → K
  /-- The value of the constant `CONFORMAL_PROJECTION_MATRIX`
  (`world.rs` lines 770-776), whose entries are irrational
  (`normalize` of integer vectors, then transpose). -/
  conformalMat : Mat3 K
  /-- The value of the `f32` constant pi (`std::f32::consts`). -/
  piConst : K
  /-- The machine tangent `f32::tan`, used by
  `RouteMotionPrimitive::pivot_motion`. -/
  tanK : K → K

namespace Pivot

variable (ops : ExternalOps K)

/-- `Pivot::from_plucker`, `pga.rs` lines 19-21:
`Line::new(d.x, d.y, d.z, m.x, m.y, m.z) * (1/2)`. -/
def from_plucker (d m : Vec3 K) : Pivot K :=
  ⟨Line.smul ⟨d.x, d.y, d.z, m.x, m.y, m.z⟩ (1 / 2)⟩

/-- `Pivot::from_translation_vector`, `pga.rs` lines 23-25. -/
def from_translation_vector (v : Vec3 K) : Pivot K :=
  from_plucker v Vec3.zero

/-- `Pivot::from_rotation_matrix`, `pga.rs` lines 27-29 (the
quaternion conversion comes from `glam`, hence through `ops`). -/
def from_rotation_matrix (m : Mat3 K) : Pivot K :=
  from_plucker Vec3.zero (ops.scaledAxis m)

/-- `Pivot::zero`, `pga.rs` lines 31-33. -/
def zero : Pivot K := from_plucker Vec3.zero Vec3.zero

/-- `Pivot::as_motor`, `pga.rs` lines 35-37: the exponential map. -/
def as_motor (p : Pivot K) : Motor K := ops.lexp p.line

/-- `Pivot::distance`, `pga.rs` lines 39-41. -/
def distance (p : Pivot K) (pt : Point K) : K := ops.pdist pt p.line

/-- `Pivot::scale`, `pga.rs` lines 43-45. -/
def scale (p : Pivot K) (alpha : K) : Pivot K := ⟨p.line.smul alpha⟩

end Pivot

/-- `PivotalMotion`, `pga.rs` lines 49-54: an ordered pivot list with
pre- and post-correction motors. -/
structure PivotalMotion (K : Type) [LinearOrderedField K] where
  pivots : List (Pivot K)
  pre_motor : Motor K
  post_motor : Motor K
  deriving DecidableEq, Repr

namespace PivotalMotion

variable (ops : ExternalOps K)

/-- `PivotalMotion::from_pivots`, `pga.rs` lines 57-63. -/
def from_pivots (pivots : List (Pivot K)) : PivotalMotion K :=
  ⟨pivots, (Pivot.zero.as_motor ops), (Pivot.zero.as_motor ops)⟩

/-- `PivotalMotion::pre_transform`, `pga.rs` lines 65-71. -/
def pre_transform (m : PivotalMotion K) (motor : Motor K) : PivotalMotion K :=
  ⟨m.pivots, ops.gp m.pre_motor motor, m.post_motor⟩

/-- `PivotalMotion::post_transform`, `pga.rs` lines 73-79. -/
def post_transform (m : PivotalMotion K) (motor : Motor K) : PivotalMotion K :=
  ⟨m.pivots, m.pre_motor, ops.gp motor m.post_motor⟩

/-- `PivotalMotion::rewind`, `pga.rs` lines 81-92: reverse the pivot
list, scale every pivot by `-1`, keep both correction motors. -/
def rewind (m : PivotalMotion K) : PivotalMotion K :=
  ⟨(m.pivots.reverse).map (fun pivot => pivot.scale (-1)),
   m.pre_motor, m.post_motor⟩

/-- Modelled from the spec: `PivotalMotion::transform` is called by
`world.rs` (route construction and the planner) but its definition is
absent from the provided sources; section 4.4 describes it as globally
correcting the motion into a frame, i.e. composing the given motor onto
the post-correction, exactly as `post_transform`. -/
def transform (m : PivotalMotion K) (motor : Motor K) : PivotalMotion K :=
  ⟨m.pivots, m.pre_motor, ops.gp motor m.post_motor⟩

/-- `PivotalMotion::matrix_from_motor`, `pga.rs` lines 94-107. -/
def matrix_from_motor (motor : Motor K) : Mat4 K :=
  let x_axis := ops.transformation motor ⟨0, 1, 0, 0⟩
  let y_axis := ops.transformation motor ⟨0, 0, 1, 0⟩
  let z_axis := ops.transformation motor ⟨0, 0, 0, 1⟩
  let w_axis := ops.psignum (ops.transformation motor ⟨1, 0, 0, 1⟩)
  ⟨⟨x_axis.p1, x_axis.p2, x_axis.p3, x_axis.p0⟩,
   ⟨y_axis.p1, y_axis.p2, y_axis.p3, y_axis.p0⟩,
   ⟨z_axis.p1, z_axis.p2, z_axis.p3, z_axis.p0⟩,
   ⟨w_axis.p1, w_axis.p2, w_axis.p3, w_axis.p0⟩⟩

/-- Modelled from the spec: `target()` (section 4.3) is referenced by the
spec but absent from the provided sources; it folds the motors of all
pivots, in order, onto the pre-correction and composes the
post-correction, as `PivotalMotionPath::terminal_motor` does for the
expanded trajectory. -/
def target (m : PivotalMotion K) : Motor K :=
  ops.gp m.post_motor
    (m.pivots.foldl (fun motor pivot => ops.gp (pivot.as_motor ops) motor)
      m.pre_motor)

end PivotalMotion

/-- One segment of a `PivotalMotionPath`: the tuple
`(normalized pivot, entry motor, exit-correction motor, arc length)` of
`pga.rs` line 111. -/
structure PathSeg (K : Type) [LinearOrderedField K] where
  pivot : Pivot K
  pre_motor : Motor K
  post_motor : Motor K
  len : K
  deriving DecidableEq, Repr

/-- `PivotalMotionPath`, `pga.rs` line 111.  The Rust value is a `Vec`
consumed by `pop()` from its back; here the list is kept in consumption
order, so the Lean head corresponds to the Rust trailing element and
`pop` corresponds to matching on the head.  `initial_motor` reads the
Rust `last()`, i.e. the Lean head; `terminal_motor` reads the Rust
`first()`, i.e. the Lean last element. -/
abbrev PivotalMotionPath (K : Type) [LinearOrderedField K] :=
  List (PathSeg K)

namespace PivotalMotionPath

variable (ops : ExternalOps K)

/-- The `scan` body of `from_pivotal_motions` (`pga.rs` lines 119-136)
over the pivots of one `PivotalMotion`: thread the entry motor through
the pivots, measuring each pivot's arc length at the point currently
occupied by the moving frame. -/
def scanMotion : List (Pivot K) → Motor K → Motor K → List (PathSeg K)
  | [], _, _ => []
  | pivot :: rest, motor, post =>
    let distance := pivot.distance ops
      (ops.psignum (ops.transformation motor ⟨1, 0, 0, 0⟩))
    ⟨pivot.scale (1 / distance), motor, post, distance⟩ ::
      scanMotion rest (ops.gp (pivot.as_motor ops) motor) post

/-- `PivotalMotionPath::from_pivotal_motions`, `pga.rs` lines 114-143
(the final `rev()` puts the Rust vector in pop order; the Lean list is
already in consumption order, see `PivotalMotionPath`). -/
def from_pivotal_motions (motions : List (PivotalMotion K)) :
    PivotalMotionPath K :=
  motions.flatMap (fun m => scanMotion ops m.pivots m.pre_motor m.post_motor)

/-- `PivotalMotionPath::consume_distance`, `pga.rs` lines 145-162.  The
Rust method mutates `self` and returns `Option<Motor>`; here the new
state is returned alongside.  On the `None` outcome the Rust vector has
been fully drained by `pop`, hence the empty list. -/
def consume_distance : PivotalMotionPath K → K →
    Option (Motor K) × PivotalMotionPath K
  | [], _ => (none, [])
  | ⟨pivot, pre_motor, post_motor, distance⟩ :: rest, consumed =>
    if consumed ≤ distance then
      let next_pre_motor := ops.gp ((pivot.scale consumed).as_motor ops) pre_motor
      (some (ops.gp post_motor next_pre_motor),
        ⟨pivot, next_pre_motor, post_motor, distance - consumed⟩ :: rest)
    else
      consume_distance rest (consumed - distance)

/-- `PivotalMotionPath::initial_motor`, `pga.rs` lines 164-169. -/
def initial_motor : PivotalMotionPath K → Motor K
  | [] => Pivot.zero.as_motor ops
  | seg :: _ => ops.gp seg.post_motor seg.pre_motor

/-- `PivotalMotionPath::terminal_motor`, `pga.rs` lines 171-183. -/
def terminal_motor (p : PivotalMotionPath K) : Motor K :=
  match p.getLast? with
  | none => Pivot.zero.as_motor ops
  | some seg =>
    ops.gp seg.post_motor
      (ops.gp ((seg.pivot.scale seg.len).as_motor ops) seg.pre_motor)

/-- The total remaining arc length of a trajectory. -/
def totalLen (p : PivotalMotionPath K) : K :=
  (p.map PathSeg.len).sum

end PivotalMotionPath

/-- `TileFragment`, `fragment.rs` lines 13-36: opaque tags for the
renderable pieces a tile may contain. -/
inductive TileFragment where
  | TriangleXFore | TriangleXRear | TriangleYFore | TriangleYRear
  | TriangleZForeLeft | TriangleZForeRight
  | TriangleZSideLeft | TriangleZSideRight
  | TriangleZRearLeft | TriangleZRearRight
  | LadderMajorFace | LadderMajorBulkSide | LadderMajorCompSide
  | LadderMinorFace | LadderMinorBulkSide | LadderMinorCompSide
  | ArchMajorFace | ArchMajorBulkSide | ArchMajorCompSide
  | ArchMinorFace | ArchMinorBulkSide | ArchMinorCompSide
  deriving DecidableEq, Repr, Fintype

/-- `TileInternalAnchorPositionAxis`, `world.rs` lines 32-42. -/
inductive TileInternalAnchorPositionAxis where
  | PlaneForeZ | PlaneRearZ
  | LadderMajorFaceX | LadderMajorFaceY
  | LadderMinorFaceX | LadderMinorFaceY
  | ArchMajorFaceXY | ArchMinorFaceXY
  deriving DecidableEq, Repr, Fintype

/-- `TileExternalAnchorPosition`, `world.rs` lines 44-52. -/
inductive TileExternalAnchorPosition where
  | ForeLeft | ForeRight | SideLeft | SideRight | RearLeft | RearRight
  deriving DecidableEq, Repr, Fintype

/-- The discriminant of a `TileExternalAnchorPosition`. -/
def TileExternalAnchorPosition.idx : TileExternalAnchorPosition → Nat
  | .ForeLeft => 0 | .ForeRight => 1 | .SideLeft => 2
  | .SideRight => 3 | .RearLeft => 4 | .RearRight => 5

/-- `TileExternalAnchorPosition::into_vec3`, `world.rs` lines 54-65. -/
def TileExternalAnchorPosition.into_vec3 :
    TileExternalAnchorPosition → Vec3 K
  | .ForeLeft => ⟨2, 1, 0⟩
  | .ForeRight => ⟨1, 2, 0⟩
  | .SideLeft => ⟨1, -1, 0⟩
  | .SideRight => ⟨-1, 1, 0⟩
  | .RearLeft => ⟨-1, -2, 0⟩
  | .RearRight => ⟨-2, -1, 0⟩

/-- `TileExternalAnchorAxis`, `world.rs` lines 67-72. -/
inductive TileExternalAnchorAxis where
  | X | Y | Z
  deriving DecidableEq, Repr, Fintype

/-- `TileAnchorPositionAxis`, `world.rs` lines 74-78. -/
inductive TileAnchorPositionAxis where
  | Internal (pa : TileInternalAnchorPositionAxis)
  | External (pos : TileExternalAnchorPosition) (axis : TileExternalAnchorAxis)
  deriving DecidableEq, Repr, Fintype

/-- `TileAnchorSign`, `world.rs` lines 80-84. -/
inductive TileAnchorSign where
  | Pos | Neg
  deriving DecidableEq, Repr, Fintype

/-- `impl BitXor<bool> for TileAnchorSign`, `world.rs` lines 86-95. -/
def TileAnchorSign.bxor : TileAnchorSign → Bool → TileAnchorSign
  | .Pos, false => .Pos
  | .Neg, true => .Pos
  | .Neg, false => .Neg
  | .Pos, true => .Neg

/-- `TileAnchor`, `world.rs` lines 106-111 (the field is spelled
`stationery` in the source). -/
structure TileAnchor where
  position_axis : TileAnchorPositionAxis
  sign : TileAnchorSign
  stationery : Bool
  deriving DecidableEq, Repr, Fintype

/-- `Direction::from_tuple`, `world.rs` lines 196-205. -/
def Direction.from_tuple :
    TileAnchorSign × TileExternalAnchorAxis → Direction
  | (.Pos, .X) => .PosX
  | (.Pos, .Y) => .PosY
  | (.Pos, .Z) => .PosZ
  | (.Neg, .X) => .NegX
  | (.Neg, .Y) => .NegY
  | (.Neg, .Z) => .NegZ

/-- `Direction::into_tuple`, `world.rs` lines 207-216. -/
def Direction.into_tuple :
    Direction → TileAnchorSign × TileExternalAnchorAxis
  | .PosX => (.Pos, .X)
  | .PosY => (.Pos, .Y)
  | .PosZ => (.Pos, .Z)
  | .NegX => (.Neg, .X)
  | .NegY => (.Neg, .Y)
  | .NegZ => (.Neg, .Z)

/-- The `TILE_EXTERNAL_ANCHOR_POSITION_ACTION_TABLE` constant of
`TileAnchor::act`, `world.rs` lines 124-140, row `action`, column
`external_position`. -/
def tileExternalAnchorPositionActionTable :
    List (List TileExternalAnchorPosition) :=
  [[.ForeLeft, .ForeRight, .SideLeft, .SideRight, .RearLeft, .RearRight],
   [.ForeRight, .SideRight, .ForeLeft, .RearRight, .SideLeft, .RearLeft],
   [.SideRight, .RearRight, .ForeRight, .RearLeft, .ForeLeft, .SideLeft],
   [.RearRight, .RearLeft, .SideRight, .SideLeft, .ForeRight, .ForeLeft],
   [.RearLeft, .SideLeft, .RearRight, .ForeLeft, .SideRight, .ForeRight],
   [.SideLeft, .ForeLeft, .RearLeft, .ForeRight, .RearRight, .SideRight],
   [.RearLeft, .RearRight, .SideLeft, .SideRight, .ForeLeft, .ForeRight],
   [.SideLeft, .RearLeft, .ForeLeft, .RearRight, .ForeRight, .SideRight],
   [.ForeLeft, .SideLeft, .ForeRight, .RearLeft, .SideRight, .RearRight],
   [.ForeRight, .ForeLeft, .SideRight, .SideLeft, .RearRight, .RearLeft],
   [.SideRight, .ForeRight, .RearRight, .ForeLeft, .RearLeft, .SideLeft],
   [.RearRight, .SideRight, .RearLeft, .ForeRight, .SideLeft, .ForeLeft]]

/-- The `DIRECTION_ACTION_TABLE` constant of `TileAnchor::act`,
`world.rs` lines 142-158, row `action`, column `direction`. -/
def directionActionTable : List (List Direction) :=
  [[.PosX, .PosY, .PosZ, .NegX, .NegY, .NegZ],
   [.NegZ, .NegX, .NegY, .PosZ, .PosX, .PosY],
   [.PosY, .PosZ, .PosX, .NegY, .NegZ, .NegX],
   [.NegX, .NegY, .NegZ, .PosX, .PosY, .PosZ],
   [.PosZ, .PosX, .PosY, .NegZ, .NegX, .NegY],
   [.NegY, .NegZ, .NegX, .PosY, .PosZ, .PosX],
   [.NegY, .NegX, .NegZ, .PosY, .PosX, .PosZ],
   [.PosX, .PosZ, .PosY, .NegX, .NegZ, .NegY],
   [.NegZ, .NegY, .NegX, .PosZ, .PosY, .PosX],
   [.PosY, .PosX, .PosZ, .NegY, .NegX, .NegZ],
   [.NegX, .NegZ, .NegY, .PosX, .PosZ, .PosY],
   [.PosZ, .PosY, .PosX, .NegZ, .NegY, .NegX]]

/-- `TileAnchor::act`, `world.rs` lines 122-193: Internal anchors are
returned unchanged; External anchors have their position permuted by
the first table and their signed axis permuted by the second. -/
def TileAnchor.act (a : TileAnchor) (action : D6) : TileAnchor :=
  match a with
  | ⟨.Internal pa, sign, st⟩ => ⟨.Internal pa, sign, st⟩
  | ⟨.External pos axis, sign, st⟩ =>
    let newPos :=
      (tileExternalAnchorPositionActionTable.getD action.idx []).getD
        pos.idx .ForeLeft
    let newDir :=
      (directionActionTable.getD action.idx []).getD
        (Direction.from_tuple (sign, axis)).idx .PosX
    let t := newDir.into_tuple
    ⟨.External newPos t.2, t.1, st⟩

/-- `RouteMotionPrimitive`, `world.rs` lines 219-226. -/
inductive RouteMotionPrimitive where
  | Plane | PlaneExt | Ladder | LadderExt | Arch | ArchExt
  deriving DecidableEq, Repr, Fintype

namespace RouteMotionPrimitive

/-- `RouteMotionPrimitive::slope`, `world.rs` lines 266-271. -/
def slope : RouteMotionPrimitive → K
  | .Plane | .PlaneExt => 0
  | .Ladder | .LadderExt | .Arch | .ArchExt => 1

/-- `RouteMotionPrimitive::rotation_angle`, `world.rs` lines 273-278
(`FRAC_PI_4` is the machine constant pi over four). -/
def rotation_angle (ops : ExternalOps K) : RouteMotionPrimitive → K
  | .Plane | .PlaneExt | .Ladder | .LadderExt => 0
  | .Arch | .ArchExt => ops.piConst / 4

/-- `RouteMotionPrimitive::is_extended`, `world.rs` lines 280-285. -/
def is_extended : RouteMotionPrimitive → Bool
  | .Plane | .Ladder | .Arch => false
  | .PlaneExt | .LadderExt | .ArchExt => true

/-- `RouteMotionPrimitive::pivot_motion`, `world.rs` lines 229-264.
`angle / angle.tan()` only occurs when the angle is nonzero; the `tan`
of the machine library is reached through `ops.tanK`. -/
def pivot_motion (ops : ExternalOps K)
    (p : RouteMotionPrimitive) (backward flip : Bool) : PivotalMotion K :=
  let slope := p.slope
  let angle := p.rotation_angle ops
  let angle_cot_angle := if angle ≠ 0 then angle / ops.tanK angle else 1
  let stem_pivot := Pivot.from_plucker
    (Vec3.smul angle ⟨1, 0, 0⟩)
    ((Vec3.smul (angle_cot_angle - angle * slope) ⟨0, 1, 0⟩).add
      (Vec3.smul (angle_cot_angle * slope + angle) ⟨0, 0, 1⟩))
  let branch_pivot : List (Pivot K) :=
    if p.is_extended then [Pivot.from_translation_vector ⟨0, 1, 0⟩] else []
  let motion := PivotalMotion.from_pivots ops (branch_pivot ++ [stem_pivot])
  let motion := if backward then
      (motion.rewind).transform ops
        ((Pivot.from_rotation_matrix ops
          (AxisSystem.NegXNegYPosZ.into_mat3)).as_motor ops)
    else motion
  if flip then
    motion.transform ops
      ((Pivot.from_rotation_matrix ops
        (AxisSystem.NegXPosYNegZ.into_mat3)).as_motor ops)
  else motion

end RouteMotionPrimitive

/-- `RouteFamilyInfo`, `world.rs` lines 288-294. -/
structure RouteFamilyInfo (K : Type) [LinearOrderedField K] where
  motion_primitive : RouteMotionPrimitive
  axis_system : AxisSystem
  external_position : TileExternalAnchorPosition
  internal_position_axis : TileInternalAnchorPositionAxis
  fragments_requirement : List TileFragment

/-- `Route`, `world.rs` lines 331-336. -/
structure Route (K : Type) [LinearOrderedField K] where
  initial_anchor : TileAnchor
  terminal_anchor : TileAnchor
  pivotal_motion : PivotalMotion K
  fragments_requirement : List TileFragment

/-- `RouteFamilyInfo::route`, `world.rs` lines 296-328: resolve one of
the four symmetry variants of an authored family. -/
def RouteFamilyInfo.route (ops : ExternalOps K)
    (f : RouteFamilyInfo K) (backward flip : Bool) : Route K :=
  let initial_motor := ops.gp
    ((Pivot.from_translation_vector
      (f.external_position.into_vec3 (K := K))).as_motor ops)
    ((Pivot.from_rotation_matrix ops (f.axis_system.into_mat3)).as_motor ops)
  let st := (f.axis_system.into_triplet.2.2).into_tuple
  let external_anchor : TileAnchor :=
    ⟨.External f.external_position st.2, st.1.bxor flip,
      f.motion_primitive.is_extended⟩
  let internal_anchor : TileAnchor :=
    ⟨.Internal f.internal_position_axis, TileAnchorSign.Pos.bxor flip, true⟩
  let anchors := if backward then (internal_anchor, external_anchor)
    else (external_anchor, internal_anchor)
  { initial_anchor := anchors.1
    terminal_anchor := anchors.2
    pivotal_motion :=
      (f.motion_primitive.pivot_motion ops backward flip).transform ops
        initial_motor
    fragments_requirement := f.fragments_requirement }

/-- `ROUTE_FAMILY_INFO_LIST`, `world.rs` lines 437-579: the twenty
authored route families. -/
def routeFamilyInfoList : List (RouteFamilyInfo K) :=
  [⟨.Plane, .PosYNegXPosZ, .ForeLeft, .PlaneForeZ,
     [.TriangleZForeLeft]⟩,
   ⟨.Plane, .NegXNegYPosZ, .ForeRight, .PlaneForeZ,
     [.TriangleZForeRight]⟩,
   ⟨.Plane, .PosXPosYPosZ, .RearLeft, .PlaneRearZ,
     [.TriangleZRearLeft]⟩,
   ⟨.Plane, .NegYPosXPosZ, .RearRight, .PlaneRearZ,
     [.TriangleZRearRight]⟩,
   ⟨.PlaneExt, .PosXPosYPosZ, .SideLeft, .PlaneForeZ,
     [.TriangleZSideLeft, .TriangleZForeLeft]⟩,
   ⟨.PlaneExt, .NegYPosXPosZ, .SideRight, .PlaneForeZ,
     [.TriangleZSideRight, .TriangleZForeRight]⟩,
   ⟨.PlaneExt, .PosYNegXPosZ, .SideLeft, .PlaneRearZ,
     [.TriangleZSideLeft, .TriangleZRearLeft]⟩,
   ⟨.PlaneExt, .NegXNegYPosZ, .SideRight, .PlaneRearZ,
     [.TriangleZSideRight, .TriangleZRearRight]⟩,
   ⟨.Ladder, .PosZPosYNegX, .SideLeft, .LadderMajorFaceX,
     [.LadderMajorFace]⟩,
   ⟨.Ladder, .NegZPosXNegY, .SideRight, .LadderMajorFaceY,
     [.LadderMajorFace]⟩,
   ⟨.Ladder, .PosZNegYPosX, .SideRight, .LadderMajorFaceX,
     [.LadderMajorFace]⟩,
   ⟨.Ladder, .NegZNegXPosY, .SideLeft, .LadderMajorFaceY,
     [.LadderMajorFace]⟩,
   ⟨.LadderExt, .NegZNegYNegX, .ForeRight, .LadderMinorFaceX,
     [.TriangleXFore, .LadderMinorFace]⟩,
   ⟨.LadderExt, .PosZPosXPosY, .ForeRight, .LadderMinorFaceY,
     [.TriangleYRear, .LadderMinorFace]⟩,
   ⟨.LadderExt, .NegZPosYPosX, .RearLeft, .LadderMinorFaceX,
     [.TriangleXRear, .LadderMinorFace]⟩,
   ⟨.LadderExt, .PosZNegXNegY, .RearLeft, .LadderMinorFaceY,
     [.TriangleYFore, .LadderMinorFace]⟩,
   ⟨.Arch, .PosZNegYPosX, .SideRight, .ArchMajorFaceXY,
     [.ArchMajorFace]⟩,
   ⟨.Arch, .NegZNegXPosY, .SideLeft, .ArchMajorFaceXY,
     [.ArchMajorFace]⟩,
   ⟨.ArchExt, .NegZPosYPosX, .RearLeft, .ArchMinorFaceXY,
     [.TriangleXRear, .ArchMinorFace]⟩,
   ⟨.ArchExt, .PosZNegXNegY, .ForeLeft, .ArchMinorFaceXY,
     [.TriangleYFore, .ArchMinorFace]⟩]

/-- `ROUTE_LIST`, `world.rs` lines 581-593: the Cartesian expansion of
every family with the four symmetry variants, in source order. -/
def routeList (ops : ExternalOps K) : List (Route K) :=
  (routeFamilyInfoList (K := K)).flatMap (fun f =>
    [f.route ops false false,
     f.route ops true false,
     f.route ops false true,
     f.route ops true true])

/-- An integer 3-axis cube coordinate, models `glam::I16Vec3` (the
planner only ever forms sums of level coordinates with unit offsets,
far from the `i16` bounds, so the carrier is the integers). -/
structure IVec3 where
  x : Int
  y : Int
  z : Int
  deriving DecidableEq, Repr

/-- Componentwise addition of coordinates. -/
def IVec3.add (a b : IVec3) : IVec3 := ⟨a.x + b.x, a.y + b.y, a.z + b.z⟩

/-- Componentwise negation of coordinates. -/
def IVec3.neg (a : IVec3) : IVec3 := ⟨-a.x, -a.y, -a.z⟩

/-- `Tile`, `world.rs` lines 595-599 (the `HashSet` of fragments is a
list; only membership is ever queried). -/
structure Tile where
  fragments : List TileFragment
  action : D6
  deriving DecidableEq, Repr

/-- The tile dictionary `HashMap<I16Vec3, Tile>` as a lookup function. -/
def TileDict := IVec3 → Option Tile

/-- `MovementState`, `world.rs` lines 601-605. -/
structure MovementState where
  world_coord : IVec3
  anchor : TileAnchor
  deriving DecidableEq, Repr

/-- `World`, `world.rs` lines 607-612. -/
structure World (K : Type) [LinearOrderedField K] where
  tile_dict : TileDict
  movement_state : MovementState
  motor : Motor K

namespace World

/-- `World::world_coord_as_vec3`, `world.rs` lines 615-617. -/
def world_coord_as_vec3 (c : IVec3) : Vec3 K :=
  Vec3.smul 2 ⟨(c.x : K), (c.y : K), (c.z : K)⟩

/-- The `REFLECTION_MATRIX` constant of
`World::rotation_matrix_from_action`, `world.rs` lines 620-624. -/
def reflectionMatrix : Mat3 K :=
  ⟨⟨-1/3, 2/3, 2/3⟩, ⟨2/3, -1/3, 2/3⟩, ⟨2/3, 2/3, -1/3⟩⟩

/-- `World::rotation_matrix_from_action`, `world.rs` lines 619-643. -/
def rotation_matrix_from_action (action : D6) : Mat3 K :=
  let p : AxisSystem × Bool :=
    match action with
    | .R0 => (.PosXPosYPosZ, false)
    | .R1 => (.PosZPosXPosY, true)
    | .R2 => (.PosYPosZPosX, false)
    | .R3 => (.PosXPosYPosZ, true)
    | .R4 => (.PosZPosXPosY, false)
    | .R5 => (.PosYPosZPosX, true)
    | .S0 => (.NegYNegXNegZ, false)
    | .S1 => (.NegXNegZNegY, true)
    | .S2 => (.NegZNegYNegX, false)
    | .S3 => (.NegYNegXNegZ, true)
    | .S4 => (.NegXNegZNegY, false)
    | .S5 => (.NegZNegYNegX, true)
  (if p.2 then reflectionMatrix else Mat3.identity).mul (p.1.into_mat3)

/-- The `COORD_OFFSET_ITEMS` constant of
`World::movement_state_synonym`, `world.rs` lines 646-654. -/
def coordOffsetItems : List (TileExternalAnchorPosition × IVec3) :=
  [(.ForeLeft, ⟨1, 0, -1⟩), (.ForeRight, ⟨0, 1, -1⟩),
   (.SideLeft, ⟨1, -1, 0⟩), (.SideRight, ⟨-1, 1, 0⟩),
   (.RearLeft, ⟨0, -1, 1⟩), (.RearRight, ⟨-1, 0, 1⟩)]

/-- `World::movement_state_synonym`, `world.rs` lines 645-681: an
External anchor viewed from the neighbouring tile across its edge. -/
def movement_state_synonym (s : MovementState) : Option MovementState :=
  match s.anchor.position_axis with
  | .Internal _ => none
  | .External external_position external_axis =>
    let coord_offset := (coordOffsetItems.findSome? (fun pr =>
      if pr.1 = external_position then some pr.2 else none)).getD ⟨0, 0, 0⟩
    let opposite := (coordOffsetItems.findSome? (fun pr =>
      if pr.2 = coord_offset.neg then some pr.1 else none)).getD .ForeLeft
    some ⟨s.world_coord.add coord_offset,
      ⟨.External opposite external_axis, s.anchor.sign, s.anchor.stationery⟩⟩

/-- The candidate hops of one initial state: the inner
`flat_map`/`filter_map` of `iter_possible_next_movement_states_from`,
`world.rs` lines 690-723 — every route whose fragment requirement is
contained in the tile at the state's coordinate and whose acted initial
anchor matches, paired with its globally corrected pivotal motion. -/
def hopsFrom (ops : ExternalOps K) (dict : TileDict)
    (s : MovementState) : List (MovementState × PivotalMotion K) :=
  match dict s.world_coord with
  | none => []
  | some tile =>
    (routeList ops).filterMap (fun route =>
      if route.fragments_requirement.all
          (fun f => tile.fragments.contains f) then
        if route.initial_anchor.act tile.action = s.anchor then
          some (⟨s.world_coord, route.terminal_anchor.act tile.action⟩,
            route.pivotal_motion.transform ops
              (ops.gp
                ((Pivot.from_translation_vector
                  (world_coord_as_vec3 (K := K) s.world_coord)).as_motor ops)
                ((Pivot.from_rotation_matrix ops
                  (rotation_matrix_from_action tile.action)).as_motor ops)))
        else none
      else none)

/-- `World::iter_possible_next_movement_states_from`, `world.rs`
lines 683-752.  The source recursion is unbounded (a risk the spec
flags in section 9); the embedding uses an explicit fuel that each
recursive step decrements, returning no result when it runs out. -/
def iterPossibleNextMovementStatesFrom (ops : ExternalOps K) :
    Nat → MovementState → TileDict →
    List (MovementState × List (PivotalMotion K))
  | 0, _, _ => []
  | fuel + 1, movement_state, dict =>
    let initials := movement_state ::
      (movement_state_synonym movement_state).toList
    let hops := initials.flatMap (fun init => hopsFrom ops dict init)
    let expanded := hops.flatMap (fun hop =>
      (if hop.1.anchor.stationery then [(hop.1, ([] : List (PivotalMotion K)))]
       else iterPossibleNextMovementStatesFrom ops fuel hop.1 dict).map
        (fun cont => (cont.1, hop.2 :: cont.2)))
    expanded.filter (fun res => initials.all (fun init => init ≠ res.1))

/-- `World::iter_possible_next_movement_states`, `world.rs`
lines 754-758. -/
def iterPossibleNextMovementStates (ops : ExternalOps K)
    (fuel : Nat) (w : World K) :
    List (MovementState × List (PivotalMotion K)) :=
  iterPossibleNextMovementStatesFrom ops fuel w.movement_state w.tile_dict

/-- `World::conformal_transform`, `world.rs` lines 764-778 (the
projection matrix constant has irrational entries and is part of
`ExternalOps`). -/
def conformal_transform (ops : ExternalOps K) (v : Vec3 K) : Vec2 K :=
  (ops.conformalMat.mulVec3 v).xy

end World

/-- `glam::Mat4::transform_point3`: the affine image of a point, the
columns weighted by its coordinates plus the translation column. -/
def Mat4.transform_point3 (m : Mat4 K) (v : Vec3 K) : Vec3 K :=
  ⟨m.x_axis.p0 * v.x + m.y_axis.p0 * v.y + m.z_axis.p0 * v.z + m.w_axis.p0,
   m.x_axis.p1 * v.x + m.y_axis.p1 * v.y + m.z_axis.p1 * v.z + m.w_axis.p1,
   m.x_axis.p2 * v.x + m.y_axis.p2 * v.y + m.z_axis.p2 * v.z + m.w_axis.p2⟩

/-- `Iterator::min_by` over a list with a strict key comparison: the
first element attaining the minimal key is kept, as in the Rust
documentation of `min_by`. -/
def minByKey {α : Type} (key : α → K) : List α → Option α
  | [] => none
  | x :: xs => some (xs.foldl (fun m y => if key y < key m then y else m) x)

namespace World

/-- The body of the `filter_map` of `World::motion`, `world.rs`
lines 849-864, applied to one candidate: `None` when the cursor is not
beyond `RADIUS_THRESHOLD = 1` from the player or the angular deviation
is not below `ANGLE_THRESHOLD = pi / 6`. -/
def motionFilter (ops : ExternalOps K) (w : World K) (cursor : Vec2 K)
    (cand : MovementState × List (PivotalMotion K)) :
    Option (MovementState × PivotalMotionPath K × K) :=
  let player_coord := conformal_transform ops
    ((PivotalMotion.matrix_from_motor ops w.motor).transform_point3 Vec3.zero)
  if ops.len2 (cursor.sub player_coord) > 1 then
    let path := PivotalMotionPath.from_pivotal_motions ops cand.2
    let target_coord := conformal_transform ops
      ((PivotalMotion.matrix_from_motor ops
        (path.terminal_motor ops)).transform_point3 Vec3.zero)
    let abs_angle :=
      |ops.angleTo (target_coord.sub player_coord) (cursor.sub player_coord)|
    if abs_angle < ops.piConst / 6 then some (cand.1, path, abs_angle)
    else none
  else none

/-- `World::motion`, `world.rs` lines 845-870.  The Rust method mutates
`self.movement_state` on success; the updated world is returned
alongside the optional trajectory. -/
def motion (ops : ExternalOps K) (fuel : Nat) (w : World K)
    (cursor : Vec2 K) : Option (PivotalMotionPath K) × World K :=
  let kept := (iterPossibleNextMovementStates ops fuel w).filterMap
    (motionFilter ops w cursor)
  match minByKey (fun t => t.2.2) kept with
  | none => (none, w)
  | some (ms, path, _) => (some path, { w with movement_state := ms })

end World

namespace PivotalMotionPath

/-- The result of the last of a sequence of `consume_distance` calls,
threading the mutated trajectory through: models a caller repeatedly
feeding arc-length increments during playback. -/
def consumeSeq (ops : ExternalOps K) :
    PivotalMotionPath K → List K → Option (Motor K) × PivotalMotionPath K
  | l, [] => (none, l)
  | l, a :: as =>
    match as with
    | [] => consume_distance ops l a
    | _ :: _ => consumeSeq ops (consume_distance ops l a).2 as

end PivotalMotionPath

namespace World

/-- The candidate filter exactly as claim C2 words it: the kept
candidates are those whose final position lies beyond the minimum
radius from the player (the radius test is on the candidate's target,
not on the cursor) and within the angular threshold of the cursor
direction.  This definition follows the claim, for comparison against
`World.motionFilter`, which follows the source. -/
def motionFilterClaimC2 (ops : ExternalOps K) (w : World K) (cursor : Vec2 K)
    (cand : MovementState × List (PivotalMotion K)) :
    Option (MovementState × PivotalMotionPath K × K) :=
  let player_coord := conformal_transform ops
    ((PivotalMotion.matrix_from_motor ops w.motor).transform_point3 Vec3.zero)
  let path := PivotalMotionPath.from_pivotal_motions ops cand.2
  let target_coord := conformal_transform ops
    ((PivotalMotion.matrix_from_motor ops
      (path.terminal_motor ops)).transform_point3 Vec3.zero)
  if ops.len2 (target_coord.sub player_coord) > 1 then
    let abs_angle :=
      |ops.angleTo (target_coord.sub player_coord) (cursor.sub player_coord)|
    if abs_angle < ops.piConst / 6 then some (cand.1, path, abs_angle)
    else none
  else none

/-- The selection policy exactly as claim C2 words it, built on
`motionFilterClaimC2`; to be compared with `World.motion`. -/
def motionClaimC2 (ops : ExternalOps K) (fuel : Nat) (w : World K)
    (cursor : Vec2 K) : Option (PivotalMotionPath K) × World K :=
  let kept := (iterPossibleNextMovementStates ops fuel w).filterMap
    (motionFilterClaimC2 ops w cursor)
  match minByKey (fun t => t.2.2) kept with
  | none => (none, w)
  | some (ms, path, _) => (some path, { w with movement_state := ms })

end World

/-- Concrete trivial instantiation of the external numeric primitives
over the rationals, used by witnesses: every operation is a constant or
a projection, so evaluation is exact. -/
def opsTriv : ExternalOps ℚ where
  gp := fun _ b => b
  lexp := fun _ => Motor.identity
  transformation := fun _ p => p
  psignum := fun p => p
  pdist := fun _ _ => 1
  scaledAxis := fun _ => Vec3.zero
  len2 := fun _ => 0
  angleTo := fun _ _ => 0
  conformalMat := Mat3.identity
  piConst := 0
  tanK := fun _ => 1

/-- A nonzero rational motor used by counterexample fixtures: a motor
whose first translation coefficient is `2`. -/
def motorT : Motor ℚ := ⟨0, 0, 0, 0, 0, 2, 0, 0⟩

/-- External-operation fixture over the rationals for the planner
counterexamples: the geometric product keeps its left factor, the
exponential is constantly `motorT`, the sandwich product translates a
point by the motor's last three coefficients, the planar length is the
taxicab length and the machine pi is taken as `6` (so the angular
threshold is `1`). -/
def opsW : ExternalOps ℚ where
  gp := fun a _ => a
  lexp := fun _ => motorT
  transformation := fun m p => ⟨p.p0, p.p1 + m.m5, p.p2 + m.m6, p.p3 + m.m7⟩
  psignum := fun p => p
  pdist := fun _ _ => 1
  scaledAxis := fun _ => Vec3.zero
  len2 := fun v => |v.x| + |v.y|
  angleTo := fun _ _ => 0
  conformalMat := Mat3.identity
  piConst := 6
  tanK := fun _ => 1

/-- Fixture world: one tile at the origin carrying the fore-left
triangle fragment with the identity orientation, the player resting on
the matching external anchor of the first authored Plane family. -/
def wPlane : World ℚ where
  tile_dict := fun c =>
    if c = ⟨0, 0, 0⟩ then some ⟨[.TriangleZForeLeft], .R0⟩ else none
  movement_state := ⟨⟨0, 0, 0⟩, ⟨.External .ForeLeft .Z, .Pos, false⟩⟩
  motor := ⟨0, 0, 0, 0, 0, 0, 0, 0⟩

/-- Fixture world with no tiles at all. -/
def wEmpty : World ℚ where
  tile_dict := fun _ => none
  movement_state := ⟨⟨0, 0, 0⟩, ⟨.Internal .PlaneForeZ, .Pos, true⟩⟩
  motor := ⟨0, 0, 0, 0, 0, 0, 0, 0⟩

namespace World

/-- The player's projected 2-dimensional position as `World::motion`
computes it: the conformal projection of the origin image under the
player's pose matrix. -/
def playerCoord (ops : ExternalOps K) (w : World K) : Vec2 K :=
  conformal_transform ops
    ((PivotalMotion.matrix_from_motor ops w.motor).transform_point3 Vec3.zero)

/-- The projected 2-dimensional final position of one planner
candidate, as `World::motion` computes it from the candidate's
trajectory. -/
def candidateTargetCoord (ops : ExternalOps K)
    (cand : MovementState × List (PivotalMotion K)) : Vec2 K :=
  conformal_transform ops
    ((PivotalMotion.matrix_from_motor ops
      ((PivotalMotionPath.from_pivotal_motions ops cand.2).terminal_motor
        ops)).transform_point3 Vec3.zero)

end World

/-- Counterexample fixture: a pivot with a nonzero first coefficient. -/
def pv0 : Pivot ℚ := ⟨⟨1, 0, 0, 0, 0, 0⟩⟩

/-- Counterexample fixture for the rewind claim: a pivotal motion whose
pre- and post-corrections differ. -/
def mRewindCE : PivotalMotion ℚ := ⟨[pv0], Motor.identity, motorT⟩

/-- Fixture movement state: the internal fore-plane anchor of the
origin tile, the terminal state of the fixture world's only move. -/
def msT : MovementState := ⟨⟨0, 0, 0⟩, ⟨.Internal .PlaneForeZ, .Pos, true⟩⟩

/-- The global world correction motor the planner composes onto the
matched route's motion for the origin tile of the fixture world. -/
def wcorrT : Motor ℚ :=
  opsW.gp
    ((Pivot.from_translation_vector
      (World.world_coord_as_vec3 ⟨0, 0, 0⟩)).as_motor opsW)
    ((Pivot.from_rotation_matrix opsW
      (World.rotation_matrix_from_action D6.R0)).as_motor opsW)

/-- The first authored route family (fore-left Plane). -/
def fam0 : RouteFamilyInfo ℚ :=
  ⟨.Plane, .PosYNegXPosZ, .ForeLeft, .PlaneForeZ, [.TriangleZForeLeft]⟩

/-- The pivotal motion of the fixture world's only candidate move. -/
def pmT : PivotalMotion ℚ :=
  ((fam0.route opsW false false)).pivotal_motion.transform opsW wcorrT

/-- The fixture world's only planner candidate. -/
def candT : MovementState × List (PivotalMotion ℚ) := (msT, [pmT])

/-- Fixture trajectory with a single segment of arc length one. -/
def pathOne : PivotalMotionPath ℚ :=
  [⟨pv0, Motor.identity, Motor.identity, 1⟩]

/-- Auxiliary: scaling a pivot by minus one twice is the identity. -/
theorem Pivot.scale_neg_one_involutive (p : Pivot K) :
    (p.scale (-1)).scale (-1) = p := by
  cases p with
  | mk l =>
    cases l
    simp [Pivot.scale, Line.smul, mul_neg_one, neg_neg]

/-- C5: the D6 multiplication table is a valid group table: the
operation (total by construction) is associative, rotation-zero is a
two-sided identity, and every element has a unique two-sided inverse. -/
theorem d6_multiplication_group :
    (∀ a b c : D6, (a.mul b).mul c = a.mul (b.mul c)) ∧
    (∀ a : D6, a.mul .R0 = a ∧ D6.mul .R0 a = a) ∧
    (∀ a : D6, ∃! b : D6, a.mul b = .R0 ∧ b.mul a = .R0) := by
  refine ⟨by decide, by decide, ?_⟩
  simp only [ExistsUnique]
  decide

set_option maxHeartbeats 4000000
set_option maxRecDepth 40000

/-- C6: `TileAnchor::act` is a group action on anchors: acting by
rotation-zero is the identity, acting by `g` then `h` equals acting by
the single element `h * g` (the consistent composition convention of
this implementation, for all anchors and all `g`, `h`), and every
Internal anchor is a fixed point of every group element. -/
theorem tile_anchor_act_group_action :
    (∀ a : TileAnchor, a.act .R0 = a) ∧
    (∀ (a : TileAnchor) (g h : D6), (a.act g).act h = a.act (D6.mul h g)) ∧
    (∀ (pa : TileInternalAnchorPositionAxis) (sg : TileAnchorSign)
      (st : Bool) (g : D6),
      (TileAnchor.mk (.Internal pa) sg st).act g =
        TileAnchor.mk (.Internal pa) sg st) := by
  refine ⟨by decide, by decide, by decide⟩

/-- C8: for every `AxisSystem`, the matrix built by `into_mat3` has as
its columns exactly the direction vectors of the triplet, is orthogonal
(its transpose times itself is the identity) and has determinant plus
or minus one. -/
theorem axis_system_into_mat3_orthogonal (a : AxisSystem) :
    ((a.into_mat3 (K := K)).x_axis = a.into_triplet.1.into_vec3 ∧
      (a.into_mat3 (K := K)).y_axis = a.into_triplet.2.1.into_vec3 ∧
      (a.into_mat3 (K := K)).z_axis = a.into_triplet.2.2.into_vec3) ∧
    (a.into_mat3 (K := K)).transpose.mul (a.into_mat3) = Mat3.identity ∧
    ((a.into_mat3 (K := K)).det = 1 ∨ (a.into_mat3 (K := K)).det = -1) := by
  refine ⟨⟨rfl, rfl, rfl⟩, ?_, ?_⟩
  · cases a <;>
      simp [AxisSystem.into_mat3, AxisSystem.into_triplet, Direction.into_vec3,
        Mat3.transpose, Mat3.mul, Mat3.mulVec3, Mat3.identity, Vec3.smul,
        Vec3.add]
  · cases a <;>
      simp [AxisSystem.into_mat3, AxisSystem.into_triplet, Direction.into_vec3,
        Mat3.det, Vec3.dot, Vec3.cross]

/-- C1 (amended): `rewind` reverses the pivot list and negates each
pivot's parameter, and leaves the pre- and post-correction motors in
place (it does not swap them). -/
theorem pivotalMotion_rewind_keeps_corrections (m : PivotalMotion K) :
    (m.rewind).pivots = (m.pivots.reverse).map (fun p => p.scale (-1)) ∧
    (m.rewind).pre_motor = m.pre_motor ∧
    (m.rewind).post_motor = m.post_motor :=
  ⟨rfl, rfl, rfl⟩

/-- C1 counterexample: on a motion whose corrections differ, the claim
that `rewind` swaps the pre- and post-correction motors fails — the
rewound motion's pre-correction equals the original pre-correction, not
the original post-correction. -/
theorem pivotalMotion_rewind_swap_counterexample :
    ¬((mRewindCE.rewind).pivots =
        (mRewindCE.pivots.reverse).map (fun p => p.scale (-1)) ∧
      (mRewindCE.rewind).pre_motor = mRewindCE.post_motor ∧
      (mRewindCE.rewind).post_motor = mRewindCE.pre_motor) := by
  intro h
  have h1 := h.2.1
  simp [mRewindCE, PivotalMotion.rewind, Motor.identity, motorT] at h1

/-- C9: rewinding twice is the identity on pivotal motions, hence the
doubly rewound motion has the same target pose — the same
pre-correction, the same pivot motors in order, and the same
post-correction — exactly, not merely within floating tolerance. -/
theorem pivotalMotion_rewind_involutive (ops : ExternalOps K)
    (m : PivotalMotion K) :
    m.rewind.rewind = m ∧
    (m.rewind.rewind).target ops = m.target ops ∧
    (m.rewind.rewind).pre_motor = m.pre_motor ∧
    (m.rewind.rewind).post_motor = m.post_motor := by
  have h : m.rewind.rewind = m := by
    cases m with
    | mk pivots pre post =>
      have hc : ((fun p : Pivot K => p.scale (-1)) ∘
          (fun p : Pivot K => p.scale (-1))) = id :=
        funext fun p => Pivot.scale_neg_one_involutive p
      simp [PivotalMotion.rewind, List.map_reverse, List.map_map, hc]
  exact ⟨h, by rw [h], by rw [h], by rw [h]⟩

/-- C10: on an empty trajectory both endpoint queries return the
exponential of the zero pivot, and under the exponential-map semantics
of the external algebra (the exponential of zero is the identity
motor) both are the neutral rigid transform; neither query can fail. -/
theorem empty_path_motors_identity (ops : ExternalOps K)
    (h : Pivot.zero.as_motor ops = Motor.identity (K := K)) :
    PivotalMotionPath.initial_motor ops ([] : PivotalMotionPath K) =
      Pivot.zero.as_motor ops ∧
    PivotalMotionPath.terminal_motor ops ([] : PivotalMotionPath K) =
      Pivot.zero.as_motor ops ∧
    PivotalMotionPath.initial_motor ops ([] : PivotalMotionPath K) =
      Motor.identity ∧
    PivotalMotionPath.terminal_motor ops ([] : PivotalMotionPath K) =
      Motor.identity :=
  ⟨rfl, rfl, h, h⟩

/-- C10 witness: at the trivial rational instantiation, the empty
trajectory's endpoint motors are the identity motor. -/
theorem empty_path_motors_identity_witness :
    PivotalMotionPath.initial_motor opsTriv ([] : PivotalMotionPath ℚ) =
      Motor.identity ∧
    PivotalMotionPath.terminal_motor opsTriv ([] : PivotalMotionPath ℚ) =
      Motor.identity :=
  ⟨(empty_path_motors_identity opsTriv rfl).2.2.1,
   (empty_path_motors_identity opsTriv rfl).2.2.2⟩

/-- Auxiliary: the fold of `minByKey` returns an element of its inputs. -/
theorem minByKey_foldl_mem {α : Type} (key : α → K) :
    ∀ (l : List α) (x : α),
      l.foldl (fun m y => if key y < key m then y else m) x ∈ x :: l := by
  intro l
  induction l with
  | nil => intro x; simp
  | cons y l ih =>
    intro x
    simp only [List.foldl_cons]
    rcases List.mem_cons.mp (ih (if key y < key x then y else x)) with h | h
    · by_cases hc : key y < key x <;> simp [hc] at h ⊢ <;> simp [h]
    · simp [h]

/-- Auxiliary: the fold of `minByKey` attains the minimal key. -/
theorem minByKey_foldl_le {α : Type} (key : α → K) :
    ∀ (l : List α) (x : α),
      key (l.foldl (fun m y => if key y < key m then y else m) x) ≤ key x ∧
      ∀ y ∈ l,
        key (l.foldl (fun m y => if key y < key m then y else m) x) ≤ key y := by
  intro l
  induction l with
  | nil => intro x; simp
  | cons b l ih =>
    intro x
    simp only [List.foldl_cons]
    have hstep : key (if key b < key x then b else x) ≤ key x ∧
        key (if key b < key x then b else x) ≤ key b := by
      by_cases hc : key b < key x
      · simp [hc, le_of_lt hc]
      · simp [hc, le_of_not_lt hc]
    refine ⟨le_trans (ih _).1 hstep.1, ?_⟩
    intro z hz
    rcases List.mem_cons.mp hz with h | h
    · subst h
      exact le_trans (ih _).1 hstep.2
    · exact (ih _).2 z h

/-- Auxiliary: `minByKey` is `none` exactly on the empty list, and on
success returns an element of the list of minimal key. -/
theorem minByKey_spec {α : Type} (key : α → K) (l : List α) :
    (minByKey key l = none ↔ l = []) ∧
    (∀ x, minByKey key l = some x → x ∈ l ∧ ∀ y ∈ l, key x ≤ key y) := by
  constructor
  · cases l <;> simp [minByKey]
  · intro x hx
    cases l with
    | nil => simp [minByKey] at hx
    | cons a l =>
      simp only [minByKey, Option.some.injEq] at hx
      subst hx
      refine ⟨minByKey_foldl_mem key l a, ?_⟩
      intro y hy
      rcases List.mem_cons.mp hy with h | h
      · exact h ▸ (minByKey_foldl_le key l a).1
      · exact (minByKey_foldl_le key l a).2 y h

/-- C4: `World::motion` leaves the tile dictionary and the player motor
untouched in every case; when it returns `None` the whole world is
unchanged, and when it returns a trajectory the movement state becomes
the movement state of the chosen filtered candidate. -/
theorem world_motion_mutation_discipline (ops : ExternalOps K) (fuel : Nat)
    (w : World K) (cursor : Vec2 K) :
    (World.motion ops fuel w cursor).2.tile_dict = w.tile_dict ∧
    (World.motion ops fuel w cursor).2.motor = w.motor ∧
    ((World.motion ops fuel w cursor).1 = none →
      (World.motion ops fuel w cursor).2 = w) ∧
    (∀ p, (World.motion ops fuel w cursor).1 = some p →
      ∃ ms a,
        (ms, p, a) ∈ (World.iterPossibleNextMovementStates ops fuel w).filterMap
          (World.motionFilter ops w cursor) ∧
        (World.motion ops fuel w cursor).2 =
          { w with movement_state := ms }) := by
  simp only [World.motion]
  cases hm : minByKey (fun t : MovementState × PivotalMotionPath K × K => t.2.2)
      ((World.iterPossibleNextMovementStates ops fuel w).filterMap
        (World.motionFilter ops w cursor)) with
  | none => simp
  | some v =>
    obtain ⟨ms, path, a⟩ := v
    refine ⟨by simp, by simp, by simp, ?_⟩
    intro p hp
    simp only [Option.some.injEq] at hp
    subst hp
    exact ⟨ms, a, ((minByKey_spec _ _).2 _ hm).1, rfl⟩

/-- C2 (amended): `World::motion` considers exactly the planner's
candidates and keeps those for which the cursor lies beyond the minimum
radius from the player (the radius test is on the cursor, not on the
candidate's final position) and the candidate's final position lies
within the angular threshold of the cursor direction; it returns the
kept candidate of smallest angular deviation and `None` exactly when
nothing is kept — never an error. -/
theorem world_motion_selection_policy (ops : ExternalOps K) (fuel : Nat)
    (w : World K) (cursor : Vec2 K) :
    ((World.motion ops fuel w cursor).1 = none ↔
      (World.iterPossibleNextMovementStates ops fuel w).filterMap
        (World.motionFilter ops w cursor) = []) ∧
    (∀ p, (World.motion ops fuel w cursor).1 = some p →
      ∃ ms a,
        (ms, p, a) ∈ (World.iterPossibleNextMovementStates ops fuel w).filterMap
          (World.motionFilter ops w cursor) ∧
        ∀ q ∈ (World.iterPossibleNextMovementStates ops fuel w).filterMap
          (World.motionFilter ops w cursor), a ≤ q.2.2) ∧
    (∀ cand, World.motionFilter ops w cursor cand ≠ none ↔
      (1 < ops.len2 (cursor.sub (World.playerCoord ops w)) ∧
        |ops.angleTo ((World.candidateTargetCoord ops cand).sub
            (World.playerCoord ops w))
          (cursor.sub (World.playerCoord ops w))| < ops.piConst / 6)) := by
  refine ⟨?_, ?_, ?_⟩
  · simp only [World.motion]
    cases hm : minByKey (fun t : MovementState × PivotalMotionPath K × K => t.2.2)
        ((World.iterPossibleNextMovementStates ops fuel w).filterMap
          (World.motionFilter ops w cursor)) with
    | none => simpa using (minByKey_spec _ _).1.mp hm
    | some v =>
      obtain ⟨ms, path, a⟩ := v
      have : (World.iterPossibleNextMovementStates ops fuel w).filterMap
          (World.motionFilter ops w cursor) ≠ [] := by
        intro he
        rw [he] at hm
        simp [minByKey] at hm
      simp [this]
  · simp only [World.motion]
    cases hm : minByKey (fun t : MovementState × PivotalMotionPath K × K => t.2.2)
        ((World.iterPossibleNextMovementStates ops fuel w).filterMap
          (World.motionFilter ops w cursor)) with
    | none => simp
    | some v =>
      obtain ⟨ms, path, a⟩ := v
      intro p hp
      simp only [Option.some.injEq] at hp
      subst hp
      exact ⟨ms, a, ((minByKey_spec _ _).2 _ hm).1,
        fun q hq => ((minByKey_spec _ _).2 _ hm).2 q hq⟩
  · intro cand
    simp only [World.motionFilter, World.playerCoord,
      World.candidateTargetCoord]
    split_ifs with h1 h2 <;> simp_all [gt_iff_lt]

/-- C7: no element of the planner's result set has a terminal movement
state equal to the initial state or to its synonym. -/
theorem planner_excludes_initial_and_synonym (ops : ExternalOps K)
    (fuel : Nat) (s : MovementState) (dict : TileDict)
    (res : MovementState × List (PivotalMotion K))
    (hmem : res ∈ World.iterPossibleNextMovementStatesFrom ops fuel s dict) :
    res.1 ≠ s ∧
    ∀ t, World.movement_state_synonym s = some t → res.1 ≠ t := by
  cases fuel with
  | zero => simp [World.iterPossibleNextMovementStatesFrom] at hmem
  | succ fuel =>
    rw [World.iterPossibleNextMovementStatesFrom] at hmem
    have hp := (List.mem_filter.mp hmem).2
    simp only [List.all_eq_true, decide_eq_true_eq] at hp
    constructor
    · exact fun h =>
        (hp s (List.mem_cons_self _ _)) (h.symm)
    · intro t ht h
      refine (hp t ?_) (h.symm)
      refine List.mem_cons.mpr (Or.inr ?_)
      simp [ht]

/-- C7 witness: the fixture world's single planner result is the
internal fore-plane anchor, which differs from the initial state. -/
theorem planner_excludes_initial_and_synonym_witness :
    candT ∈ World.iterPossibleNextMovementStatesFrom opsW 2
      wPlane.movement_state wPlane.tile_dict ∧
    candT.1 ≠ wPlane.movement_state :=
  have hmem : candT ∈ World.iterPossibleNextMovementStatesFrom opsW 2
      wPlane.movement_state wPlane.tile_dict :=
    List.mem_singleton_self candT
  ⟨hmem,
    (planner_excludes_initial_and_synonym opsW 2 wPlane.movement_state
      wPlane.tile_dict candT hmem).1⟩

/-- C4 witness: on a world without tiles every cursor yields no move
and the world value is returned unchanged. -/
theorem world_motion_mutation_discipline_witness :
    (World.motion opsTriv 1 wEmpty ⟨0, 0⟩).1 = none ∧
    (World.motion opsTriv 1 wEmpty ⟨0, 0⟩).2 = wEmpty :=
  ⟨rfl,
    (world_motion_mutation_discipline opsTriv 1 wEmpty ⟨0, 0⟩).2.2.1 rfl⟩

/-- C2 witness: on a world without tiles the selection policy yields
no move, and the kept-candidate characterization holds at a concrete
candidate. -/
theorem world_motion_selection_policy_witness :
    (World.motion opsTriv 1 wEmpty ⟨0, 0⟩).1 = none ∧
    (World.motionFilter opsTriv wEmpty ⟨0, 0⟩ (msT, []) ≠ none ↔
      (1 < opsTriv.len2 (Vec2.sub ⟨0, 0⟩ (World.playerCoord opsTriv wEmpty)) ∧
        |opsTriv.angleTo
            ((World.candidateTargetCoord opsTriv (msT, [])).sub
              (World.playerCoord opsTriv wEmpty))
            (Vec2.sub ⟨0, 0⟩ (World.playerCoord opsTriv wEmpty))| <
          opsTriv.piConst / 6)) :=
  ⟨(world_motion_selection_policy opsTriv 1 wEmpty ⟨0, 0⟩).1.mpr rfl,
    (world_motion_selection_policy opsTriv 1 wEmpty ⟨0, 0⟩).2.2 (msT, [])⟩

/-- C2 counterexample: with the cursor half a unit from the player —
inside the minimum radius — aligned with the fixture world's single
candidate whose final position is two units away, the source `motion`
returns no move, while the claim's reading (radius measured on the
candidate's final position) selects the candidate. -/
theorem world_motion_radius_on_cursor_counterexample :
    (World.motion opsW 2 wPlane ⟨1/2, 0⟩).1 = none ∧
    (World.motionClaimC2 opsW 2 wPlane ⟨1/2, 0⟩).1 ≠ none := by
  constructor
  · have h : ∀ cand, World.motionFilter opsW wPlane ⟨1/2, 0⟩ cand = none := by
      intro cand
      unfold World.motionFilter
      norm_num [World.conformal_transform, PivotalMotion.matrix_from_motor,
        Mat4.transform_point3, Mat3.mulVec3, Mat3.identity, Vec3.smul,
        Vec3.add, Vec3.xy, Vec3.zero, Vec2.sub, opsW, wPlane, abs_of_nonneg]
    unfold World.motion World.iterPossibleNextMovementStates
    rw [List.filterMap_eq_nil_iff.mpr (fun a _ => h a)]
    rfl
  · have hplan : World.iterPossibleNextMovementStatesFrom opsW 2
        wPlane.movement_state wPlane.tile_dict = [candT] := rfl
    have hf : (World.motionFilterClaimC2 opsW wPlane ⟨1/2, 0⟩ candT).isSome
        = true := by
      unfold World.motionFilterClaimC2
      norm_num [World.conformal_transform, PivotalMotion.matrix_from_motor,
        Mat4.transform_point3, Mat3.mulVec3, Mat3.identity, Vec3.smul,
        Vec3.add, Vec3.xy, Vec3.zero, Vec2.sub, opsW, wPlane, motorT,
        abs_of_nonneg, PivotalMotionPath.from_pivotal_motions,
        PivotalMotionPath.scanMotion, PivotalMotionPath.terminal_motor,
        PivotalMotion.from_pivots, PivotalMotion.transform, Pivot.as_motor,
        Pivot.scale, Pivot.distance, candT, pmT, wcorrT, fam0,
        RouteFamilyInfo.route, RouteMotionPrimitive.pivot_motion,
        RouteMotionPrimitive.is_extended, RouteMotionPrimitive.slope,
        RouteMotionPrimitive.rotation_angle, Pivot.from_plucker,
        Pivot.from_translation_vector, Pivot.from_rotation_matrix, Line.smul]
    obtain ⟨v, hv⟩ := Option.isSome_iff_exists.mp hf
    obtain ⟨ms, path, a⟩ := v
    unfold World.motionClaimC2 World.iterPossibleNextMovementStates
    rw [hplan]
    simp only [one_div] at hv
    simp [List.filterMap_cons, hv, minByKey]

namespace PivotalMotionPath

/-- Auxiliary: a trajectory of segments with nonnegative lengths has a
nonnegative total length. -/
theorem totalLen_nonneg :
    ∀ l : PivotalMotionPath K, (∀ s ∈ l, 0 ≤ s.len) → 0 ≤ totalLen l := by
  intro l
  induction l with
  | nil => intro _; simp [totalLen]
  | cons seg rest ih =>
    intro h
    have h1 := h seg (List.mem_cons_self _ _)
    have h2 := ih (fun s hs => h s (List.mem_cons_of_mem _ hs))
    simp only [totalLen, List.map_cons, List.sum_cons]
    exact add_nonneg h1 h2

/-- Auxiliary: a nonempty trajectory of segments with positive lengths
has positive total length. -/
theorem totalLen_pos :
    ∀ l : PivotalMotionPath K, l ≠ [] → (∀ s ∈ l, 0 < s.len) →
      0 < totalLen l := by
  intro l hne h
  cases l with
  | nil => exact absurd rfl hne
  | cons seg rest =>
    have h1 := h seg (List.mem_cons_self _ _)
    have h2 := totalLen_nonneg rest
      (fun s hs => le_of_lt (h s (List.mem_cons_of_mem _ hs)))
    simp only [totalLen, List.map_cons, List.sum_cons]
    exact add_pos_of_pos_of_nonneg h1 h2

/-- Auxiliary: consuming strictly more than the remaining length
exhausts the trajectory and returns nothing. -/
theorem consume_none_of_lt (ops : ExternalOps K) :
    ∀ (l : PivotalMotionPath K) (a : K), (∀ s ∈ l, 0 ≤ s.len) →
      totalLen l < a → (consume_distance ops l a).1 = none := by
  intro l
  induction l with
  | nil => intro a _ _; rfl
  | cons seg rest ih =>
    intro a h hlt
    have hs := h seg (List.mem_cons_self _ _)
    have hrest := totalLen_nonneg rest
      (fun s hs => h s (List.mem_cons_of_mem _ hs))
    simp only [totalLen, List.map_cons, List.sum_cons] at hlt
    simp only [totalLen] at hrest
    have hgt : ¬ a ≤ seg.len := by
      intro hle
      linarith
    obtain ⟨pivot, pre, post, len⟩ := seg
    simp only [consume_distance, hgt, if_false]
    refine ih (a - len) (fun s hs => h s (List.mem_cons_of_mem _ hs)) ?_
    simp only [totalLen]
    simp only [PathSeg.len] at hlt hgt
    linarith

/-- Auxiliary: consuming at most the remaining length of a nonempty
trajectory yields a pose. -/
theorem consume_isSome (ops : ExternalOps K) :
    ∀ (l : PivotalMotionPath K) (a : K), l ≠ [] → (∀ s ∈ l, 0 ≤ s.len) →
      0 ≤ a → a ≤ totalLen l →
      ((consume_distance ops l a).1).isSome = true := by
  intro l
  induction l with
  | nil => intro a hne; exact absurd rfl hne
  | cons seg rest ih =>
    intro a _ h ha hle
    by_cases hc : a ≤ seg.len
    · obtain ⟨pivot, pre, post, len⟩ := seg
      simp [consume_distance, hc]
    · obtain ⟨pivot, pre, post, len⟩ := seg
      simp only [consume_distance, hc, if_false]
      have hrestne : rest ≠ [] := by
        intro he
        subst he
        simp only [totalLen, List.map_cons, List.map_nil, List.sum_cons,
          List.sum_nil, add_zero] at hle
        exact hc hle
      refine ih (a - len) hrestne
        (fun s hs => h s (List.mem_cons_of_mem _ hs)) (by push_neg at hc; linarith)
        ?_
      simp only [totalLen, List.map_cons, List.sum_cons] at hle
      simp only [totalLen]
      linarith

end PivotalMotionPath

namespace PivotalMotionPath

/-- Auxiliary: the terminal motor ignores a leading segment when more
segments follow. -/
theorem terminal_motor_cons (ops : ExternalOps K) (seg : PathSeg K)
    (rest : PivotalMotionPath K) (h : rest ≠ []) :
    terminal_motor ops (seg :: rest) = terminal_motor ops rest := by
  cases rest with
  | nil => exact absurd rfl h
  | cons b t => simp only [terminal_motor, List.getLast?_cons_cons]

/-- Auxiliary: consuming within the remaining length keeps the
trajectory nonempty, keeps lengths nonnegative (tails positive),
reduces the total length by the consumed amount, and — under the
one-parameter-subgroup property of the external exponential — preserves
the terminal motor. -/
theorem consume_state (ops : ExternalOps K)
    (H : ∀ (p : Pivot K) (a b : K) (x : Motor K),
      ops.gp ((p.scale b).as_motor ops) (ops.gp ((p.scale a).as_motor ops) x) =
        ops.gp ((p.scale (a + b)).as_motor ops) x) :
    ∀ (l : PivotalMotionPath K) (a : K), l ≠ [] → (∀ s ∈ l, 0 ≤ s.len) →
      (∀ s ∈ l.tail, 0 < s.len) → 0 ≤ a → a ≤ totalLen l →
      (consume_distance ops l a).2 ≠ [] ∧
      (∀ s ∈ (consume_distance ops l a).2, 0 ≤ s.len) ∧
      (∀ s ∈ (consume_distance ops l a).2.tail, 0 < s.len) ∧
      totalLen (consume_distance ops l a).2 = totalLen l - a ∧
      terminal_motor ops (consume_distance ops l a).2 =
        terminal_motor ops l := by
  intro l
  induction l with
  | nil => intro a hne; exact absurd rfl hne
  | cons seg rest ih =>
    intro a _ hnn htl ha hle
    by_cases hc : a ≤ seg.len
    · obtain ⟨pivot, pre, post, len⟩ := seg
      simp only [PathSeg.len] at hc
      simp only [consume_distance, hc, if_true]
      refine ⟨by simp, ?_, ?_, ?_, ?_⟩
      · intro s hs
        rcases List.mem_cons.mp hs with h | h
        · subst h
          simp only [PathSeg.len]
          linarith
        · exact hnn s (List.mem_cons_of_mem _ h)
      · intro s hs
        exact htl s hs
      · simp only [totalLen, List.map_cons, List.sum_cons, PathSeg.len]
        ring
      · cases rest with
        | nil =>
          simp only [terminal_motor, List.getLast?_singleton,
            List.getLast?_cons_cons]
          rw [H]
          have hadd : a + (len - a) = len := by ring
          rw [hadd]
        | cons b t =>
          simp only [terminal_motor, List.getLast?_cons_cons]
    · obtain ⟨pivot, pre, post, len⟩ := seg
      simp only [PathSeg.len] at hc
      simp only [consume_distance, hc, if_false]
      have hlen0 : (0 : K) ≤ len :=
        hnn ⟨pivot, pre, post, len⟩ (List.mem_cons_self _ _)
      have hrestne : rest ≠ [] := by
        intro he
        subst he
        simp only [totalLen, List.map_cons, List.map_nil, List.sum_cons,
          List.sum_nil, add_zero, PathSeg.len] at hle
        exact hc hle
      have hih := ih (a - len) hrestne
        (fun s hs => le_of_lt (htl s hs))
        (fun s hs => htl s (List.mem_of_mem_tail hs))
        (by push_neg at hc; linarith)
        (by
          simp only [totalLen, List.map_cons, List.sum_cons, PathSeg.len]
            at hle
          simp only [totalLen]
          linarith)
      refine ⟨hih.1, hih.2.1, hih.2.2.1, ?_, ?_⟩
      · rw [hih.2.2.2.1]
        simp only [totalLen, List.map_cons, List.sum_cons, PathSeg.len]
        ring
      · rw [hih.2.2.2.2]
        exact (terminal_motor_cons ops _ rest hrestne).symm

end PivotalMotionPath

namespace PivotalMotionPath

/-- Auxiliary: the within-segment step of `consume_distance` as one
equation. -/
theorem consume_cons_le (ops : ExternalOps K) (seg : PathSeg K)
    (rest : PivotalMotionPath K) (a : K) (h : a ≤ seg.len) :
    consume_distance ops (seg :: rest) a =
      (some (ops.gp seg.post_motor
        (ops.gp ((seg.pivot.scale a).as_motor ops) seg.pre_motor)),
       ⟨seg.pivot, ops.gp ((seg.pivot.scale a).as_motor ops) seg.pre_motor,
        seg.post_motor, seg.len - a⟩ :: rest) := by
  obtain ⟨pivot, pre, post, len⟩ := seg
  simp only [PathSeg.len] at h
  simp only [consume_distance, h, if_true]

/-- Auxiliary: the skip-segment step of `consume_distance` as one
equation. -/
theorem consume_cons_gt (ops : ExternalOps K) (seg : PathSeg K)
    (rest : PivotalMotionPath K) (a : K) (h : ¬ a ≤ seg.len) :
    consume_distance ops (seg :: rest) a =
      consume_distance ops rest (a - seg.len) := by
  obtain ⟨pivot, pre, post, len⟩ := seg
  simp only [PathSeg.len] at h
  simp only [consume_distance, h, if_false]

/-- Auxiliary: consuming exactly the remaining length returns the
terminal pose. -/
theorem consume_exact (ops : ExternalOps K) :
    ∀ l : PivotalMotionPath K, l ≠ [] → (∀ s ∈ l, 0 ≤ s.len) →
      (∀ s ∈ l.tail, 0 < s.len) →
      (consume_distance ops l (totalLen l)).1 =
        some (terminal_motor ops l) := by
  intro l
  induction l with
  | nil => intro hne; exact absurd rfl hne
  | cons seg rest ih =>
    intro _ hnn htl
    cases rest with
    | nil =>
      obtain ⟨pivot, pre, post, len⟩ := seg
      have htot : totalLen [(⟨pivot, pre, post, len⟩ : PathSeg K)] = len := by
        simp [totalLen]
      rw [htot]
      simp only [consume_distance, PathSeg.len, le_refl, if_true,
        terminal_motor, List.getLast?_singleton]
    | cons b t =>
      have htpos : 0 < totalLen (b :: t) :=
        totalLen_pos _ (by simp) (fun s hs => htl s hs)
      have hc : ¬ totalLen (seg :: b :: t) ≤ seg.len := by
        simp only [totalLen, List.map_cons, List.sum_cons] at htpos ⊢
        linarith
      rw [consume_cons_gt ops seg (b :: t) _ hc]
      have harg : totalLen (seg :: b :: t) - seg.len = totalLen (b :: t) := by
        simp only [totalLen, List.map_cons, List.sum_cons]
        ring
      rw [harg,
        ih (by simp) (fun s hs => le_of_lt (htl s hs))
          (fun s hs => htl s (List.mem_of_mem_tail hs)),
        terminal_motor_cons ops seg (b :: t) (by simp)]

/-- Auxiliary: a sequence of consumption calls whose amounts sum to the
total length ends with the terminal pose and leaves a trajectory of
total length zero. -/
theorem consumeSeq_exact (ops : ExternalOps K)
    (H : ∀ (p : Pivot K) (a b : K) (x : Motor K),
      ops.gp ((p.scale b).as_motor ops) (ops.gp ((p.scale a).as_motor ops) x) =
        ops.gp ((p.scale (a + b)).as_motor ops) x) :
    ∀ (amounts : List K) (l : PivotalMotionPath K), l ≠ [] →
      (∀ s ∈ l, 0 ≤ s.len) → (∀ s ∈ l.tail, 0 < s.len) →
      amounts ≠ [] → (∀ a ∈ amounts, 0 ≤ a) → amounts.sum = totalLen l →
      (consumeSeq ops l amounts).1 = some (terminal_motor ops l) ∧
      totalLen (consumeSeq ops l amounts).2 = 0 ∧
      (∀ s ∈ (consumeSeq ops l amounts).2, 0 ≤ s.len) := by
  intro amounts
  induction amounts with
  | nil => intro l _ _ _ hne; exact absurd rfl hne
  | cons a amounts ih =>
    intro l hl hnn htl _ hamt hsum
    cases amounts with
    | nil =>
      have ha : a = totalLen l := by simpa using hsum
      have hst := consume_state ops H l a hl hnn htl
        (hamt a (List.mem_cons_self _ _)) (le_of_eq ha)
      simp only [consumeSeq]
      refine ⟨?_, ?_, hst.2.1⟩
      · rw [ha]
        exact consume_exact ops l hl hnn htl
      · rw [hst.2.2.2.1, ha, sub_self]
    | cons a2 amounts2 =>
      have hsum2 : a2 + amounts2.sum + a = totalLen l := by
        simp only [List.sum_cons] at hsum
        linarith
      have hrest_nonneg : 0 ≤ a2 + amounts2.sum := by
        have h1 := hamt a2 (List.mem_cons_of_mem _ (List.mem_cons_self _ _))
        have h2 : 0 ≤ amounts2.sum :=
          List.sum_nonneg (fun x hx =>
            hamt x (List.mem_cons_of_mem _ (List.mem_cons_of_mem _ hx)))
        linarith
      have hale : a ≤ totalLen l := by linarith
      have hst := consume_state ops H l a hl hnn htl
        (hamt a (List.mem_cons_self _ _)) hale
      have hihres := ih (consume_distance ops l a).2 hst.1 hst.2.1 hst.2.2.1
        (by simp)
        (fun x hx => hamt x (List.mem_cons_of_mem _ hx))
        (by
          rw [hst.2.2.2.1]
          simp only [List.sum_cons]
          linarith)
      simp only [consumeSeq]
      exact ⟨hihres.1.trans (congrArg _ hst.2.2.2.2),
        hihres.2.1, hihres.2.2⟩

end PivotalMotionPath

/-- C3 (amended): `consume_distance` pops the trailing segment; within
its remaining length it advances the entry motor by the proportional
pivot fraction, pushes the reduced segment back and returns the pose;
otherwise it recurses with the leftover amount; it returns `None`
exactly when the trajectory is empty or the amount exceeds the total
remaining length; repeated calls whose amounts sum to the total length
end at the terminal pose, and any further call with a strictly positive
amount returns `None` (a zero-amount further call repeats the terminal
pose instead of failing).  The sequence property assumes the
one-parameter-subgroup law of the external exponential. -/
theorem consume_distance_spec (ops : ExternalOps K) :
    (∀ a : K,
      PivotalMotionPath.consume_distance ops ([] : PivotalMotionPath K) a =
        (none, [])) ∧
    (∀ (seg : PathSeg K) (rest : PivotalMotionPath K) (a : K), a ≤ seg.len →
      PivotalMotionPath.consume_distance ops (seg :: rest) a =
        (some (ops.gp seg.post_motor
          (ops.gp ((seg.pivot.scale a).as_motor ops) seg.pre_motor)),
         ⟨seg.pivot,
          ops.gp ((seg.pivot.scale a).as_motor ops) seg.pre_motor,
          seg.post_motor, seg.len - a⟩ :: rest)) ∧
    (∀ (seg : PathSeg K) (rest : PivotalMotionPath K) (a : K),
      ¬ a ≤ seg.len →
      PivotalMotionPath.consume_distance ops (seg :: rest) a =
        PivotalMotionPath.consume_distance ops rest (a - seg.len)) ∧
    (∀ (l : PivotalMotionPath K) (a : K), 0 ≤ a → (∀ s ∈ l, 0 ≤ s.len) →
      ((PivotalMotionPath.consume_distance ops l a).1 = none ↔
        l = [] ∨ PivotalMotionPath.totalLen l < a)) ∧
    ((∀ (p : Pivot K) (a b : K) (x : Motor K),
        ops.gp ((p.scale b).as_motor ops)
            (ops.gp ((p.scale a).as_motor ops) x) =
          ops.gp ((p.scale (a + b)).as_motor ops) x) →
      ∀ (l : PivotalMotionPath K) (amounts : List K), l ≠ [] →
        (∀ s ∈ l, 0 < s.len) → amounts ≠ [] → (∀ a ∈ amounts, 0 ≤ a) →
        amounts.sum = PivotalMotionPath.totalLen l →
        (PivotalMotionPath.consumeSeq ops l amounts).1 =
          some (PivotalMotionPath.terminal_motor ops l) ∧
        ∀ b : K, 0 < b →
          (PivotalMotionPath.consume_distance ops
            (PivotalMotionPath.consumeSeq ops l amounts).2 b).1 = none) := by
  refine ⟨fun _ => rfl, PivotalMotionPath.consume_cons_le ops,
    PivotalMotionPath.consume_cons_gt ops, ?_, ?_⟩
  · intro l a ha hnn
    constructor
    · intro hnone
      by_contra hcon
      push_neg at hcon
      have := PivotalMotionPath.consume_isSome ops l a hcon.1 hnn ha hcon.2
      rw [hnone] at this
      simp at this
    · rintro (rfl | hlt)
      · rfl
      · exact PivotalMotionPath.consume_none_of_lt ops l a hnn hlt
  · intro H l amounts hl hpos hamne hamnn hsum
    have hs := PivotalMotionPath.consumeSeq_exact ops H amounts l hl
      (fun s hs => le_of_lt (hpos s hs))
      (fun s hs => hpos s (List.mem_of_mem_tail hs)) hamne hamnn hsum
    refine ⟨hs.1, ?_⟩
    intro b hb
    exact PivotalMotionPath.consume_none_of_lt ops _ b hs.2.2
      (hs.2.1 ▸ hb)

/-- C3 witness: on a one-segment trajectory of length one, a single
call consuming one lands exactly on the terminal pose, and a further
call with a positive amount returns nothing. -/
theorem consume_distance_spec_witness :
    (PivotalMotionPath.consumeSeq opsTriv pathOne [1]).1 =
      some (PivotalMotionPath.terminal_motor opsTriv pathOne) ∧
    (PivotalMotionPath.consume_distance opsTriv
      (PivotalMotionPath.consumeSeq opsTriv pathOne [1]).2 1).1 = none :=
  have h := (consume_distance_spec opsTriv).2.2.2.2
    (fun _ _ _ _ => rfl) pathOne [1] (by simp [pathOne])
    (by
      intro s hs
      simp only [pathOne, List.mem_singleton] at hs
      subst hs
      norm_num)
    (by simp) (by intro a ha; simp at ha; subst ha; norm_num)
    (by simp [pathOne, PivotalMotionPath.totalLen])
  ⟨h.1, h.2 1 one_pos⟩

/-- C3 counterexample: after consuming exactly the total length of a
one-segment trajectory, a further call with amount zero returns a pose,
not `None` — refuting the claim that any further call returns `None`
for every amount of at least zero. -/
theorem consume_distance_zero_amount_counterexample :
    (PivotalMotionPath.consume_distance opsTriv
      (PivotalMotionPath.consume_distance opsTriv pathOne 1).2 0).1
      ≠ none := by
  norm_num [pathOne, PivotalMotionPath.consume_distance]
  exact Option.some_ne_none _
